import Mathlib

/-!
Verification of `dm_env_wrappers/_src/action_noise.py` (the `ActionNoiseWrapper`
class and its helper `_corrupt_nested_action` / `_corrupt_action`).

Embedding conventions:
- numpy float arrays are modelled as 1-D `List ℚ` (rank folded into length);
  elementwise arithmetic is exact rational arithmetic.
- `np.random.RandomState` is modelled as a deterministic stream of standard
  normal draws `stream : Nat → ℚ` together with a position `pos`.  A draw of a
  Gaussian with standard deviation `σ` returns `σ * stream pos` and advances
  `pos` — this is exactly how numpy produces a scaled normal (standard draw
  times scale), so a zero standard deviation yields exactly `0`.  Seeding is an
  unspecified fixed function `φ : Nat → Nat → ℚ` from seeds to streams
  (numpy's seeding algorithm), passed as a parameter; a fresh *unseeded*
  generator (OS entropy) is a `fresh : RandomState` parameter.
- nested actions / specs (`tree` structures) are finite trees `NTree` whose
  inner nodes hold ordered lists of children and whose leaves hold arrays
  (for actions) or array specs.
- Python's in-place mutation of the caller's arrays is observable only when
  `step` raises mid-traversal; the error value of `corrupt_nested_action`
  therefore carries the caller-visible action tree at the moment the
  exception propagates (already-processed leaves mutated, the rest intact).
  Object identity / buffer aliasing for the success path is modelled
  separately by `corrupt_action_ref` over an explicit heap.
-/

/-- Model of `np.random.RandomState`: a deterministic stream of standard
normal draws plus a cursor into it. -/
structure RandomState where
  stream : Nat → ℚ
  pos : Nat

/-- `np.random.RandomState(seed)`: the stream is a fixed function of the seed
(numpy's seeding algorithm `φ`), cursor at 0. -/
def RandomState.seeded (φ : Nat → Nat → ℚ) (seed : Nat) : RandomState :=
  ⟨φ seed, 0⟩

/-- `random_state.normal(scale=stddev)` with an array `stddev`: one draw per
element, each equal to its standard deviation times the next standard normal
of the stream; the cursor advances by the number of draws. -/
def RandomState.normalVec (rs : RandomState) (stddev : List ℚ) : List ℚ × RandomState :=
  ((List.range stddev.length).map (fun i => stddev.getD i 0 * rs.stream (rs.pos + i)),
   ⟨rs.stream, rs.pos + stddev.length⟩)

/-- A leaf of the action spec: `specs.Array` (unbounded, only a shape) or
`specs.BoundedArray` (elementwise minimum and maximum arrays). -/
inductive ArraySpec where
  | unbounded (shape : Nat)
  | bounded (minimum maximum : List ℚ)
deriving DecidableEq

/-- 1-D numpy broadcasting of `v` to length `n`: identical length, or a
one-element array replicated; anything else fails. -/
def broadcastTo (v : List ℚ) (n : Nat) : Option (List ℚ) :=
  if v.length = n then some v
  else
    match v with
    | [x] => some (List.replicate n x)
    | _ => none

/-- `action += noise` (in-place add): `noise` must broadcast to `action`'s
shape; numpy validates this before mutating, so a failing add leaves the
array untouched. -/
def addBroadcast (action noise : List ℚ) : Option (List ℚ) := do
  let noiseB ← broadcastTo noise action.length
  some (List.zipWith (· + ·) action noiseB)

/-- `np.maximum x y` on scalars (the larger of the two). -/
def rmax (x y : ℚ) : ℚ := if x ≤ y then y else x

/-- `np.minimum x y` on scalars (the smaller of the two). -/
def rmin (x y : ℚ) : ℚ := if y ≤ x then y else x

/-- `np.clip(a, lo, hi, out=a)`: elementwise `minimum (maximum a lo) hi`,
with `lo` and `hi` broadcast to `a`'s shape. -/
def clipList (a lo hi : List ℚ) : Option (List ℚ) := do
  let loB ← broadcastTo lo a.length
  let hiB ← broadcastTo hi a.length
  some (List.zipWith rmin (List.zipWith rmax a loB) hiB)

/-- `_corrupt_action` from the source: a bounded spec leaf gets Gaussian
noise with stddev `scale * (maximum - minimum)` added in place and is then
clipped into `[minimum, maximum]`; any other spec leaf is returned
unchanged.  `none` models the numpy `ValueError` raised when shapes fail to
broadcast. -/
def corrupt_action (scale : ℚ) (spec : ArraySpec) (action : List ℚ) (rs : RandomState) :
    Option (List ℚ × RandomState) :=
  match spec with
  | .unbounded _ => some (action, rs)
  | .bounded lo hi =>
    let stddev := List.zipWith (fun h l => scale * (h - l)) hi lo
    let (noise, rs') := rs.normalVec stddev
    match addBroadcast action noise with
    | none => none
    | some a1 =>
      match clipList a1 lo hi with
      | none => none
      | some a2 => some (a2, rs')

/-- Nested `tree` structures: leaves and ordered containers of sub-trees. -/
inductive NTree (α : Type) where
  | leaf (a : α)
  | node (children : List (NTree α))

/-- An action tree: leaves are numpy arrays. -/
abbrev ActionTree := NTree (List ℚ)

/-- A spec tree: leaves are array specs. -/
abbrev SpecTree := NTree ArraySpec

mutual

/-- `tree.assert_same_structure` between an action and a spec: same tree
shape (leaf contents are not inspected). -/
def sameStructure : ActionTree → SpecTree → Bool
  | .leaf _, .leaf _ => true
  | .node as, .node ss => sameStructureList as ss
  | _, _ => false

def sameStructureList : List ActionTree → List SpecTree → Bool
  | [], [] => true
  | a :: as, s :: ss => sameStructure a s && sameStructureList as ss
  | _, _ => false

end

mutual

/-- Post-structure-check part of `tree.map_structure(_corrupt_action, …)`:
leaves are processed in left-to-right flatten order, threading the random
state.  On a leaf failure the error carries the caller-visible action tree:
leaves processed before the failure keep their (in-place) corrupted values,
the failing leaf and everything after it are unchanged. -/
def corruptTree (scale : ℚ) : ActionTree → SpecTree → RandomState →
    Except ActionTree (ActionTree × RandomState)
  | .leaf a, .leaf s, rs =>
    match corrupt_action scale s a rs with
    | none => .error (.leaf a)
    | some (a', rs') => .ok (.leaf a', rs')
  | .node as, .node ss, rs =>
    match corruptChildren scale as ss rs with
    | .error as' => .error (.node as')
    | .ok (as', rs') => .ok (.node as', rs')
  | .leaf a, .node _, _ => .error (.leaf a)
  | .node as, .leaf _, _ => .error (.node as)

def corruptChildren (scale : ℚ) : List ActionTree → List SpecTree → RandomState →
    Except (List ActionTree) (List ActionTree × RandomState)
  | [], _, rs => .ok ([], rs)
  | a :: as, [], _ => .error (a :: as)
  | a :: as, s :: ss, rs =>
    match corruptTree scale a s rs with
    | .error a' => .error (a' :: as)
    | .ok (a', rs') =>
      match corruptChildren scale as ss rs' with
      | .error rest => .error (a' :: rest)
      | .ok (rest, rsf) => .ok (a' :: rest, rsf)

end

/-- The errors `step` can propagate from corruption: `structureMismatch` is
dm-tree's structure assertion (raised before any leaf is touched),
`valueError` is numpy's broadcasting error (raised mid-traversal).  Each
carries the caller-visible action tree at the moment the exception
propagates. -/
inductive CorruptError where
  | structureMismatch (actionState : ActionTree)
  | valueError (actionState : ActionTree)

/-- `_corrupt_nested_action`: `tree.map_structure` first asserts that the
action and the captured spec have the same structure, then maps
`_corrupt_action` over paired leaves. -/
def corrupt_nested_action (scale : ℚ) (action : ActionTree) (spec : SpecTree)
    (rs : RandomState) : Except CorruptError (ActionTree × RandomState) :=
  if sameStructure action spec then
    match corruptTree scale action spec rs with
    | .error state => .error (.valueError state)
    | .ok out => .ok out
  else .error (.structureMismatch action)

/-- The wrapper's state after construction: the captured action spec, the
noise scale and the resolved random state. -/
structure ActionNoiseWrapper where
  action_spec : SpecTree
  scale : ℚ
  random_state : RandomState

/-- `ActionNoiseWrapper.step`: corrupt the action when `scale > 0`, then
delegate.  The `ok` value is the (possibly corrupted) action handed to the
wrapped environment's `step` together with the updated wrapper state; the
wrapped environment's own behaviour is opaque pass-through. -/
def ActionNoiseWrapper.step (w : ActionNoiseWrapper) (action : ActionTree) :
    Except CorruptError (ActionTree × ActionNoiseWrapper) :=
  if 0 < w.scale then
    match corrupt_nested_action w.scale action w.action_spec w.random_state with
    | .error e => .error e
    | .ok (a', rs') => .ok (a', { w with random_state := rs' })
  else .ok (action, w)

/-- A Python value stored in a random-source attribute slot: either an
actual `np.random.RandomState` or some other object (which the constructor's
`assert isinstance` would reject). -/
inductive PyValue where
  | rstate (r : RandomState)
  | other

/-- The `env.task` attribute object; its `random` attribute may be absent
(an `AttributeError` on access). -/
structure TaskAttr where
  random : Option PyValue

/-- The wrapped environment, as the constructor observes it: its action
spec, an optional `task` attribute, and an optional `random_state`
attribute. -/
structure Environment where
  action_spec : SpecTree
  task : Option TaskAttr
  random_state_attr : Option PyValue

/-- The `random_state` argument of the constructor: absent, an integer
seed, or some object (a `RandomState` or anything else). -/
inductive RSArg where
  | intSeed (seed : Nat)
  | obj (v : PyValue)
  | absent

/-- Construction-time failures: `invalidArgument` is the `ValueError` for a
negative scale, `assertionError` is the failing
`assert isinstance(self._random_state, np.random.RandomState)`. -/
inductive InitError where
  | invalidArgument
  | assertionError
deriving DecidableEq

/-- The random-source resolution of `ActionNoiseWrapper.__init__`, lines
35–53: an integer seed seeds a new generator; a supplied object is used
directly; otherwise probe `env.task.random`, then `env.random_state`,
falling back to a fresh unseeded generator (also when `env` has no `task`
attribute at all). -/
def resolveRandomState (φ : Nat → Nat → ℚ) (fresh : RandomState) (env : Environment)
    (arg : RSArg) : PyValue :=
  match arg with
  | .intSeed seed => .rstate (RandomState.seeded φ seed)
  | .obj v => v
  | .absent =>
    match env.task with
    | none => .rstate fresh
    | some task =>
      match task.random with
      | some v => v
      | none =>
        match env.random_state_attr with
        | some v => v
        | none => .rstate fresh

/-- `ActionNoiseWrapper.__init__`: reject a negative scale, capture the
action spec, resolve the random source once, and assert it is a
`RandomState`. -/
def ActionNoiseWrapper.init (φ : Nat → Nat → ℚ) (fresh : RandomState) (env : Environment)
    (scale : ℚ) (arg : RSArg) : Except InitError ActionNoiseWrapper :=
  if scale < 0 then .error .invalidArgument
  else
    match resolveRandomState φ fresh env arg with
    | .rstate r => .ok ⟨env.action_spec, scale, r⟩
    | .other => .error .assertionError

/-- Run a sequence of `step` calls, collecting the corrupted actions handed
to the wrapped environment (stopping at the first corruption error, which
in Python propagates out of `step`). -/
def runSteps : ActionNoiseWrapper → List ActionTree → List (Except CorruptError ActionTree)
  | _, [] => []
  | w, a :: as =>
    match w.step a with
    | .error e => [.error e]
    | .ok (a', w') => .ok a' :: runSteps w' as

/-- Heap-based model of a single `_corrupt_action` call, making buffer
identity observable: action leaves are references into a heap of arrays.
An unbounded spec returns the caller's reference with the heap untouched; a
bounded spec computes the corrupted values (as `corrupt_action` does),
writes them into the caller's buffer in place, and returns the same
reference. -/
def corrupt_action_ref (scale : ℚ) (spec : ArraySpec) (idx : Nat) (heap : Nat → List ℚ)
    (rs : RandomState) : Option (Nat × (Nat → List ℚ) × RandomState) :=
  match spec with
  | .unbounded _ => some (idx, heap, rs)
  | .bounded lo hi =>
    match corrupt_action scale (.bounded lo hi) (heap idx) rs with
    | none => none
    | some (a', rs') => some (idx, Function.update heap idx a', rs')

/-! ### Helper lemmas -/

lemma rmax_eq_max (x y : ℚ) : rmax x y = max x y := by
  simp [rmax, max_def]

lemma rmin_eq_min (x y : ℚ) : rmin x y = min x y := by
  by_cases hyx : y ≤ x
  · simp [rmin, hyx, min_eq_right hyx]
  · simp [rmin, hyx, min_eq_left (le_of_not_le hyx)]

lemma getD_zipWith (f : ℚ → ℚ → ℚ) (as bs : List ℚ) (i : Nat)
    (h1 : i < as.length) (h2 : i < bs.length) :
    (List.zipWith f as bs).getD i 0 = f (as.getD i 0) (bs.getD i 0) := by
  have hz : i < (List.zipWith f as bs).length := by
    simp only [List.length_zipWith]; omega
  rw [List.getD_eq_getElem?_getD, List.getD_eq_getElem?_getD, List.getD_eq_getElem?_getD,
    List.getElem?_eq_getElem hz, List.getElem?_eq_getElem h1, List.getElem?_eq_getElem h2]
  simp [List.getElem_zipWith]

lemma getD_rangeMap (g : Nat → ℚ) (n i : Nat) (h : i < n) :
    ((List.range n).map g).getD i 0 = g i := by
  have hm : i < ((List.range n).map g).length := by simp [h]
  rw [List.getD_eq_getElem?_getD, List.getElem?_eq_getElem hm]
  simp

lemma list_ext_getD (xs ys : List ℚ) (hlen : xs.length = ys.length)
    (h : ∀ i, i < xs.length → xs.getD i 0 = ys.getD i 0) : xs = ys := by
  apply List.ext_getElem hlen
  intro i h1 h2
  have := h i h1
  rwa [List.getD_eq_getElem?_getD, List.getD_eq_getElem?_getD,
    List.getElem?_eq_getElem h1, List.getElem?_eq_getElem h2] at this

lemma corrupt_action_bounded_eq (scale : ℚ) (lo hi a : List ℚ) (rs : RandomState)
    (hlh : lo.length = hi.length) (hal : a.length = lo.length) :
    corrupt_action scale (.bounded lo hi) a rs =
      some (List.zipWith rmin (List.zipWith rmax
              (List.zipWith (· + ·) a
                ((List.range lo.length).map
                  (fun i => (List.zipWith (fun h l => scale * (h - l)) hi lo).getD i 0 *
                    rs.stream (rs.pos + i)))) lo) hi,
            ⟨rs.stream, rs.pos + lo.length⟩) := by
  have hstd : (List.zipWith (fun h l => scale * (h - l)) hi lo).length = lo.length := by
    simp [List.length_zipWith, hlh]
  have hnoise : ((List.range (List.zipWith (fun h l => scale * (h - l)) hi lo).length).map
      (fun i => (List.zipWith (fun h l => scale * (h - l)) hi lo).getD i 0 *
        rs.stream (rs.pos + i))).length = lo.length := by
    simp [hstd]
  have ha1 : (List.zipWith (· + ·) a
      ((List.range (List.zipWith (fun h l => scale * (h - l)) hi lo).length).map
        (fun i => (List.zipWith (fun h l => scale * (h - l)) hi lo).getD i 0 *
          rs.stream (rs.pos + i)))).length = a.length := by
    rw [List.length_zipWith, hnoise, hal]
    simp
  have hle : lo.length ≤ hi.length := le_of_eq hlh
  simp only [corrupt_action, RandomState.normalVec, addBroadcast, clipList, broadcastTo,
    hstd, hnoise, hal, ha1, hlh, if_pos, Option.bind, Option.some_bind]
  simp [hstd, hal, ha1, ← hlh, hnoise, hle]

/-- C1: for every bounded spec leaf with elementwise minimum `lo` and maximum
`hi` (the spec invariant `lo ≤ hi` holding elementwise, lengths matching),
every action leaf of matching shape, every `scale > 0` and every random-state,
the corruption of the leaf succeeds and every element of the corrupted leaf
lies in `[lo, hi]` after the clip. -/
theorem corrupt_action_clip_invariant (scale : ℚ) (lo hi a : List ℚ) (rs : RandomState)
    (hscale : 0 < scale) (hlh : lo.length = hi.length) (hal : a.length = lo.length)
    (hle : ∀ i, i < lo.length → lo.getD i 0 ≤ hi.getD i 0) :
    ∃ a' rs', corrupt_action scale (.bounded lo hi) a rs = some (a', rs') ∧
      a'.length = a.length ∧
      ∀ i, i < a'.length → lo.getD i 0 ≤ a'.getD i 0 ∧ a'.getD i 0 ≤ hi.getD i 0 := by
  refine ⟨_, _, corrupt_action_bounded_eq scale lo hi a rs hlh hal, ?_, ?_⟩
  · simp [List.length_zipWith, hal, ← hlh]
  · intro i hilen
    simp only [List.length_zipWith, List.length_map, List.length_range] at hilen
    have hia : i < a.length := by omega
    have hilo : i < lo.length := by omega
    have hihi : i < hi.length := by omega
    have hinner : i < (List.zipWith rmax
        (List.zipWith (· + ·) a
          ((List.range lo.length).map
            (fun i => (List.zipWith (fun h l => scale * (h - l)) hi lo).getD i 0 *
              rs.stream (rs.pos + i)))) lo).length := by
      simp [List.length_zipWith]; omega
    have ha1 : i < (List.zipWith (· + ·) a
        ((List.range lo.length).map
          (fun i => (List.zipWith (fun h l => scale * (h - l)) hi lo).getD i 0 *
            rs.stream (rs.pos + i)))).length := by
      simp [List.length_zipWith]; omega
    rw [getD_zipWith _ _ _ _ hinner hihi, getD_zipWith _ _ _ _ ha1 hilo,
      rmin_eq_min, rmax_eq_max]
    constructor
    · exact le_min (le_max_right _ _) (hle i hilo)
    · exact min_le_right _ _

theorem corrupt_action_clip_invariant_witness :
    ∃ a' rs', corrupt_action 1 (.bounded [0] [1]) [5] ⟨fun _ => 1, 0⟩ = some (a', rs') ∧
      a'.length = ([5] : List ℚ).length ∧
      ∀ i, i < a'.length →
        ([0] : List ℚ).getD i 0 ≤ a'.getD i 0 ∧ a'.getD i 0 ≤ ([1] : List ℚ).getD i 0 :=
  corrupt_action_clip_invariant 1 [0] [1] [5] ⟨fun _ => 1, 0⟩ (by norm_num) rfl rfl
    (by decide)

/-! ### Concrete instances used by witnesses and counterexamples -/

/-- A concrete random-state: the stream that always draws `1`. -/
def rs0 : RandomState := ⟨fun _ => 1, 0⟩

/-- A concrete seeding function for witnesses. -/
def phi0 : Nat → Nat → ℚ := fun _ _ => 1

/-- A concrete environment with a single bounded action leaf and no random
attributes. -/
def env0 : Environment := ⟨.leaf (.bounded [0] [1]), none, none⟩

/-- C2: for every wrapper whose scale is `0` and every action, `step` hands
the action to the wrapped environment unchanged and leaves the wrapper —
in particular its random-state, cursor included — untouched: no corruption
runs and no random draw is performed. -/
theorem step_scale_zero (w : ActionNoiseWrapper) (a : ActionTree) (h : w.scale = 0) :
    w.step a = .ok (a, w) := by
  simp [ActionNoiseWrapper.step, h]

theorem step_scale_zero_witness :
    ActionNoiseWrapper.step ⟨.leaf (.bounded [0] [1]), 0, rs0⟩ (.leaf [5]) =
      .ok (.leaf [5], ⟨.leaf (.bounded [0] [1]), 0, rs0⟩) :=
  step_scale_zero ⟨.leaf (.bounded [0] [1]), 0, rs0⟩ (.leaf [5]) rfl

/-- C6: construction with `scale < 0` fails with the `InvalidArgument`
condition (the `ValueError` of line 30) and produces no wrapper, while for
`scale ≥ 0` that error is never raised. -/
theorem init_negative_scale (φ : Nat → Nat → ℚ) (fresh : RandomState) (env : Environment)
    (scale : ℚ) (arg : RSArg) :
    (scale < 0 → ActionNoiseWrapper.init φ fresh env scale arg = .error .invalidArgument) ∧
    (0 ≤ scale → ActionNoiseWrapper.init φ fresh env scale arg ≠ .error .invalidArgument) := by
  constructor
  · intro h; simp [ActionNoiseWrapper.init, h]
  · intro h
    rcases hres : resolveRandomState φ fresh env arg with r | _ <;>
      simp [ActionNoiseWrapper.init, not_lt.mpr h, hres]

theorem init_negative_scale_witness :
    ActionNoiseWrapper.init phi0 rs0 env0 (-1) .absent = .error .invalidArgument ∧
    ActionNoiseWrapper.init phi0 rs0 env0 0 .absent ≠ .error .invalidArgument :=
  ⟨(init_negative_scale phi0 rs0 env0 (-1) .absent).1 (by norm_num),
   (init_negative_scale phi0 rs0 env0 0 .absent).2 le_rfl⟩

/-- C7: the random source is resolved once at construction, in order: an
integer seed yields a generator seeded with it; a supplied object is used
directly (the very value, not a copy); with nothing supplied, an
environment without a `task` attribute gets the fresh unseeded generator,
otherwise `task.random` is tried, then `env.random_state`, and if both
attributes are absent the fresh unseeded generator is used; a successful
construction stores exactly the resolved source in the wrapper. -/
theorem resolve_random_state_policy (φ : Nat → Nat → ℚ) (fresh : RandomState)
    (env : Environment) (seed : Nat) (v : PyValue) (spec : SpecTree)
    (attr : Option PyValue) (scale : ℚ) (arg : RSArg) :
    resolveRandomState φ fresh env (.intSeed seed) = .rstate (RandomState.seeded φ seed) ∧
    resolveRandomState φ fresh env (.obj v) = v ∧
    resolveRandomState φ fresh ⟨spec, none, attr⟩ .absent = .rstate fresh ∧
    resolveRandomState φ fresh ⟨spec, some ⟨some v⟩, attr⟩ .absent = v ∧
    resolveRandomState φ fresh ⟨spec, some ⟨none⟩, some v⟩ .absent = v ∧
    resolveRandomState φ fresh ⟨spec, some ⟨none⟩, none⟩ .absent = .rstate fresh ∧
    (0 ≤ scale → ∀ r, resolveRandomState φ fresh env arg = .rstate r →
      ActionNoiseWrapper.init φ fresh env scale arg = .ok ⟨env.action_spec, scale, r⟩) := by
  refine ⟨rfl, rfl, rfl, rfl, rfl, rfl, ?_⟩
  intro h r hres
  simp [ActionNoiseWrapper.init, not_lt.mpr h, hres]

theorem resolve_random_state_policy_witness :
    ActionNoiseWrapper.init phi0 rs0 env0 1 (.intSeed 7) =
      .ok ⟨env0.action_spec, 1, RandomState.seeded phi0 7⟩ :=
  (resolve_random_state_policy phi0 rs0 env0 7 .other env0.action_spec none 1
    (.intSeed 7)).2.2.2.2.2.2 (by norm_num) (RandomState.seeded phi0 7) rfl

/-- C10: when the resolution step yields something that is not an
`np.random.RandomState` (e.g. the caller supplied an object of the wrong
type), construction fails at the `assert isinstance` and no wrapper is
produced; conversely every successfully constructed wrapper stores exactly
the value the resolution produced, which passed the `RandomState` check. -/
theorem init_asserts_random_state (φ : Nat → Nat → ℚ) (fresh : RandomState)
    (env : Environment) (scale : ℚ) (arg : RSArg) (h : 0 ≤ scale) :
    (resolveRandomState φ fresh env arg = .other →
      ActionNoiseWrapper.init φ fresh env scale arg = .error .assertionError) ∧
    (∀ w, ActionNoiseWrapper.init φ fresh env scale arg = .ok w →
      resolveRandomState φ fresh env arg = .rstate w.random_state) := by
  constructor
  · intro hres; simp [ActionNoiseWrapper.init, not_lt.mpr h, hres]
  · intro w hw
    rcases hres : resolveRandomState φ fresh env arg with r | _ <;>
      simp [ActionNoiseWrapper.init, not_lt.mpr h, hres] at hw
    rw [← hw]

theorem init_asserts_random_state_witness :
    ActionNoiseWrapper.init phi0 rs0 env0 0 (.obj .other) = .error .assertionError :=
  (init_asserts_random_state phi0 rs0 env0 0 (.obj .other) le_rfl).1 rfl

/-- C8 (amended): for a bounded spec leaf with `lo == hi` and any action leaf
of matching shape, any scale and any random-state, the computed standard
deviation is zero, every Gaussian draw is exactly `0`, no error is raised,
and the corrupted value equals `lo` exactly (the clip maps the unchanged
post-noise value onto `lo`; it is a no-op exactly when the input already
equals `lo`). -/
theorem corrupt_action_zero_width (scale : ℚ) (lo a : List ℚ) (rs : RandomState)
    (hal : a.length = lo.length) :
    (rs.normalVec (List.zipWith (fun h l => scale * (h - l)) lo lo)).1 =
      List.replicate lo.length 0 ∧
    corrupt_action scale (.bounded lo lo) a rs =
      some (lo, ⟨rs.stream, rs.pos + lo.length⟩) := by
  have hstd : (List.zipWith (fun h l => scale * (h - l)) lo lo).length = lo.length := by
    simp [List.length_zipWith]
  have hstd0 : ∀ i, i < lo.length →
      (List.zipWith (fun h l => scale * (h - l)) lo lo).getD i 0 = 0 := by
    intro i h
    rw [getD_zipWith _ _ _ _ (by omega) (by omega)]
    ring
  have hnoise : (rs.normalVec (List.zipWith (fun h l => scale * (h - l)) lo lo)).1 =
      List.replicate lo.length 0 := by
    apply list_ext_getD
    · simp [RandomState.normalVec, hstd]
    · intro i h
      simp only [RandomState.normalVec, List.length_map, List.length_range, hstd] at h
      rw [RandomState.normalVec]
      simp only
      rw [getD_rangeMap _ _ _ (by rw [hstd]; exact h), hstd0 i h]
      simp [List.getD_eq_getElem?_getD, List.getElem?_replicate, h]
  refine ⟨hnoise, ?_⟩
  rw [corrupt_action_bounded_eq scale lo lo a rs rfl hal]
  simp only [Option.some.injEq, Prod.mk.injEq]
  refine ⟨?_, trivial⟩
  apply list_ext_getD
  · simp [List.length_zipWith, hal]
  · intro i h
    simp only [List.length_zipWith, List.length_map, List.length_range] at h
    have hia : i < a.length := by omega
    have hilo : i < lo.length := by omega
    have ha1 : i < (List.zipWith (· + ·) a
        ((List.range lo.length).map
          (fun i => (List.zipWith (fun h l => scale * (h - l)) lo lo).getD i 0 *
            rs.stream (rs.pos + i)))).length := by
      simp [List.length_zipWith]; omega
    have hinner : i < (List.zipWith rmax
        (List.zipWith (· + ·) a
          ((List.range lo.length).map
            (fun i => (List.zipWith (fun h l => scale * (h - l)) lo lo).getD i 0 *
              rs.stream (rs.pos + i)))) lo).length := by
      simp [List.length_zipWith]; omega
    have hnl : i < ((List.range lo.length).map
        (fun i => (List.zipWith (fun h l => scale * (h - l)) lo lo).getD i 0 *
          rs.stream (rs.pos + i))).length := by
      simp [hilo]
    rw [getD_zipWith _ _ _ _ hinner hilo, getD_zipWith _ _ _ _ ha1 hilo,
      rmin_eq_min, rmax_eq_max, getD_zipWith _ _ _ _ hia hnl,
      getD_rangeMap _ _ _ hilo, hstd0 i hilo, zero_mul, add_zero]
    exact min_eq_right (le_max_right _ _)

theorem corrupt_action_zero_width_witness :
    (rs0.normalVec (List.zipWith (fun h l => 1 * (h - l)) [0] [0])).1 =
      List.replicate 1 0 ∧
    corrupt_action 1 (.bounded [0] [0]) [0] rs0 =
      some ([0], ⟨rs0.stream, rs0.pos + 1⟩) :=
  corrupt_action_zero_width 1 [0] [0] rs0 rfl

/-- C8 counterexample to the claim as stated: with `lo = hi = [0]`,
`scale = 1` and input `[1]`, the drawn noise is `0` so the value reaching
the clip is still `[1]`, yet the output is `[0]` — the clip is *not* a
no-op for an input value outside the zero-width range (every other conjunct
of the claim holds). -/
theorem corrupt_action_zero_width_counterexample :
    addBroadcast [1]
      ((rs0.normalVec (List.zipWith (fun h l => 1 * (h - l)) [0] [0])).1) = some [1] ∧
    corrupt_action 1 (.bounded [0] [0]) [1] rs0 = some ([0], ⟨rs0.stream, 1⟩) ∧
    ([0] : List ℚ) ≠ [1] := by
  refine ⟨?_, ?_, by decide⟩
  · norm_num [RandomState.normalVec, addBroadcast, broadcastTo, rs0, List.range_succ]
  · norm_num [corrupt_action, RandomState.normalVec, addBroadcast, clipList, broadcastTo,
      rmin, rmax, rs0, List.range_succ]

/-- C9: a leaf whose spec is not a bounded range is returned bit-identical —
in the heap model the very same reference, with the heap untouched; for a
bounded leaf the corrupted, clipped values are written into the
caller-supplied buffer in place (the heap cell of the caller's reference is
overwritten, and that same reference is returned). -/
theorem corrupt_action_ref_frame (scale : ℚ) (n : Nat) (lo hi : List ℚ) (idx : Nat)
    (heap : Nat → List ℚ) (rs : RandomState) (hscale : 0 < scale)
    (hlh : lo.length = hi.length) (hal : (heap idx).length = lo.length) :
    corrupt_action scale (.unbounded n) (heap idx) rs = some (heap idx, rs) ∧
    corrupt_action_ref scale (.unbounded n) idx heap rs = some (idx, heap, rs) ∧
    ∃ a' rs', corrupt_action scale (.bounded lo hi) (heap idx) rs = some (a', rs') ∧
      corrupt_action_ref scale (.bounded lo hi) idx heap rs =
        some (idx, Function.update heap idx a', rs') := by
  refine ⟨rfl, rfl, _, _, corrupt_action_bounded_eq scale lo hi (heap idx) rs hlh hal, ?_⟩
  simp [corrupt_action_ref, corrupt_action_bounded_eq scale lo hi (heap idx) rs hlh hal]

theorem corrupt_action_ref_frame_witness :
    corrupt_action 1 (.unbounded 1) ((fun _ => ([5] : List ℚ)) 0) rs0 =
      some ((fun _ => ([5] : List ℚ)) 0, rs0) ∧
    corrupt_action_ref 1 (.unbounded 1) 0 (fun _ => ([5] : List ℚ)) rs0 =
      some (0, (fun _ => ([5] : List ℚ)), rs0) ∧
    ∃ a' rs', corrupt_action 1 (.bounded [0] [1]) ((fun _ => ([5] : List ℚ)) 0) rs0 =
        some (a', rs') ∧
      corrupt_action_ref 1 (.bounded [0] [1]) 0 (fun _ => ([5] : List ℚ)) rs0 =
        some (0, Function.update (fun _ => ([5] : List ℚ)) 0 a', rs') :=
  corrupt_action_ref_frame 1 1 [0] [1] 0 (fun _ => ([5] : List ℚ)) rs0 (by norm_num) rfl rfl

/-- C3 (amended): for an action whose *tree structure* does not match the
captured spec (missing leaves, extra leaves, or a leaf where a container is
expected) and a positive scale, `step` fails with the structure-mismatch
error and the error carries the caller's action with no leaf mutated
(dm-tree validates structure before any leaf is processed).  Leaf *shape*
mismatches are not caught by this check — see the counterexample. -/
theorem step_structure_mismatch (w : ActionNoiseWrapper) (a : ActionTree)
    (hscale : 0 < w.scale) (h : sameStructure a w.action_spec = false) :
    w.step a = .error (.structureMismatch a) := by
  simp [ActionNoiseWrapper.step, hscale, corrupt_nested_action, h]

theorem step_structure_mismatch_witness :
    ActionNoiseWrapper.step ⟨.leaf (.bounded [0] [1]), 1, rs0⟩ (.node [.leaf [5]]) =
      .error (.structureMismatch (.node [.leaf [5]])) :=
  step_structure_mismatch ⟨.leaf (.bounded [0] [1]), 1, rs0⟩ (.node [.leaf [5]])
    (by norm_num) rfl

/-- C3 counterexample to the claim as stated: the spec has two bounded
leaves of lengths 1 and 2; the action's second leaf has length 3, a shape
mismatch at a leaf.  `step` fails — but with numpy's broadcasting
`ValueError`, not `StructureMismatch` — and the caller-visible action at
that moment has its first leaf already corrupted in place (`[1]`, no longer
the input `[0]`): partial corruption *is* committed. -/
theorem step_partial_corruption_counterexample :
    ActionNoiseWrapper.step
        ⟨.node [.leaf (.bounded [0] [1]), .leaf (.bounded [0, 0] [1, 1])], 1, rs0⟩
        (.node [.leaf [0], .leaf [0, 0, 0]]) =
      .error (.valueError (.node [.leaf [1], .leaf [0, 0, 0]])) ∧
    ([1] : List ℚ) ≠ [0] := by
  constructor
  · norm_num [ActionNoiseWrapper.step, corrupt_nested_action, sameStructure,
      sameStructureList, corruptTree, corruptChildren, corrupt_action,
      RandomState.normalVec, addBroadcast, clipList, broadcastTo, rmin, rmax, rs0,
      List.range_succ]
  · decide

mutual

/-- An action structurally matching the captured spec including leaf shapes
(and the spec's own well-formedness: minimum and maximum of equal length). -/
def shapesMatch : ActionTree → SpecTree → Bool
  | .leaf a, .leaf (.unbounded n) => a.length == n
  | .leaf a, .leaf (.bounded lo hi) => a.length == lo.length && lo.length == hi.length
  | .node as, .node ss => shapesMatchList as ss
  | _, _ => false

def shapesMatchList : List ActionTree → List SpecTree → Bool
  | [], [] => true
  | a :: as, s :: ss => shapesMatch a s && shapesMatchList as ss
  | _, _ => false

end

mutual

theorem sameStructure_of_shapesMatch (a : ActionTree) (s : SpecTree)
    (h : shapesMatch a s = true) : sameStructure a s = true := by
  match a, s with
  | .leaf a, .leaf (.unbounded n) => rfl
  | .leaf a, .leaf (.bounded lo hi) => rfl
  | .node as, .node ss =>
    simp only [sameStructure]
    exact sameStructureList_of_shapesMatchList as ss (by simpa [shapesMatch] using h)
  | .leaf _, .node _ => simp [shapesMatch] at h
  | .node _, .leaf _ => simp [shapesMatch] at h

theorem sameStructureList_of_shapesMatchList (as : List ActionTree) (ss : List SpecTree)
    (h : shapesMatchList as ss = true) : sameStructureList as ss = true := by
  match as, ss with
  | [], [] => rfl
  | a :: as, s :: ss =>
    simp only [shapesMatchList, Bool.and_eq_true] at h
    simp only [sameStructureList, Bool.and_eq_true]
    exact ⟨sameStructure_of_shapesMatch a s h.1,
      sameStructureList_of_shapesMatchList as ss h.2⟩
  | [], _ :: _ => simp [shapesMatchList] at h
  | _ :: _, [] => simp [shapesMatchList] at h

end

mutual

theorem corruptTree_ok (scale : ℚ) (a : ActionTree) (s : SpecTree) (rs : RandomState)
    (h : shapesMatch a s = true) : ∃ out, corruptTree scale a s rs = .ok out := by
  match a, s with
  | .leaf arr, .leaf (.unbounded n) => exact ⟨(.leaf arr, rs), rfl⟩
  | .leaf arr, .leaf (.bounded lo hi) =>
    simp only [shapesMatch, Bool.and_eq_true, beq_iff_eq] at h
    obtain ⟨p, hp⟩ : ∃ p, corrupt_action scale (.bounded lo hi) arr rs = some p :=
      ⟨_, corrupt_action_bounded_eq scale lo hi arr rs h.2 h.1⟩
    exact ⟨(.leaf p.1, p.2), by simp [corruptTree, hp]⟩
  | .node as, .node ss =>
    obtain ⟨⟨as', rs'⟩, hok⟩ :=
      corruptChildren_ok scale as ss rs (by simpa [shapesMatch] using h)
    exact ⟨(.node as', rs'), by simp [corruptTree, hok]⟩
  | .leaf _, .node _ => simp [shapesMatch] at h
  | .node _, .leaf _ => simp [shapesMatch] at h

theorem corruptChildren_ok (scale : ℚ) (as : List ActionTree) (ss : List SpecTree)
    (rs : RandomState) (h : shapesMatchList as ss = true) :
    ∃ out, corruptChildren scale as ss rs = .ok out := by
  match as, ss with
  | [], [] => exact ⟨([], rs), rfl⟩
  | a :: as, s :: ss =>
    simp only [shapesMatchList, Bool.and_eq_true] at h
    obtain ⟨⟨a', rs'⟩, hok1⟩ := corruptTree_ok scale a s rs h.1
    obtain ⟨⟨rest, rsf⟩, hok2⟩ := corruptChildren_ok scale as ss rs' h.2
    exact ⟨(a' :: rest, rsf), by simp [corruptChildren, hok1, hok2]⟩
  | [], _ :: _ => simp [shapesMatchList] at h
  | _ :: _, [] => simp [shapesMatchList] at h

end

/-- C4: for every action that structurally matches the captured spec —
including leaf shapes — and every `scale ≥ 0`, `step` raises no error of
its own: the noise draw, in-place addition and clip all succeed, and the
(possibly corrupted) action is handed to the wrapped environment, whose
`step` is the only remaining error source. -/
theorem step_no_own_error (w : ActionNoiseWrapper) (a : ActionTree)
    (hscale : 0 ≤ w.scale) (h : shapesMatch a w.action_spec = true) :
    ∃ a' w', w.step a = .ok (a', w') := by
  by_cases hpos : 0 < w.scale
  · obtain ⟨⟨a', rs'⟩, hok⟩ := corruptTree_ok w.scale a w.action_spec w.random_state h
    exact ⟨a', { w with random_state := rs' }, by
      simp [ActionNoiseWrapper.step, hpos, corrupt_nested_action,
        sameStructure_of_shapesMatch a w.action_spec h, hok]⟩
  · exact ⟨a, w, by simp [ActionNoiseWrapper.step, hpos]⟩

theorem step_no_own_error_witness :
    ∃ a' w', ActionNoiseWrapper.step ⟨.leaf (.bounded [0] [1]), 1, rs0⟩ (.leaf [5]) =
      .ok (a', w') :=
  step_no_own_error ⟨.leaf (.bounded [0] [1]), 1, rs0⟩ (.leaf [5]) (by norm_num) rfl

/-- C5: two wrappers constructed with the same integer seed, the same scale
and the same captured action spec are identical, and fed the same sequence
of actions they hand identical sequences of corrupted actions to their
wrapped environments (two-run determinism of the corruption pipeline). -/
theorem init_seed_determinism (φ : Nat → Nat → ℚ) (fresh1 fresh2 : RandomState)
    (env1 env2 : Environment) (scale : ℚ) (seed : Nat)
    (w1 w2 : ActionNoiseWrapper) (actions : List ActionTree)
    (hspec : env1.action_spec = env2.action_spec)
    (h1 : ActionNoiseWrapper.init φ fresh1 env1 scale (.intSeed seed) = .ok w1)
    (h2 : ActionNoiseWrapper.init φ fresh2 env2 scale (.intSeed seed) = .ok w2) :
    w1 = w2 ∧ runSteps w1 actions = runSteps w2 actions := by
  by_cases hneg : scale < 0
  · simp [ActionNoiseWrapper.init, hneg] at h1
  · simp only [ActionNoiseWrapper.init, hneg, if_false, resolveRandomState,
      Except.ok.injEq] at h1 h2
    have : w1 = w2 := by rw [← h1, ← h2, hspec]
    exact ⟨this, by rw [this]⟩

theorem init_seed_determinism_witness :
    (⟨env0.action_spec, 1, RandomState.seeded phi0 3⟩ : ActionNoiseWrapper) =
      ⟨env0.action_spec, 1, RandomState.seeded phi0 3⟩ ∧
    runSteps ⟨env0.action_spec, 1, RandomState.seeded phi0 3⟩ [.leaf [0]] =
      runSteps ⟨env0.action_spec, 1, RandomState.seeded phi0 3⟩ [.leaf [0]] :=
  init_seed_determinism phi0 rs0 ⟨fun _ => 0, 5⟩ env0 env0 1 3 _ _ [.leaf [0]] rfl
    (by norm_num [ActionNoiseWrapper.init, resolveRandomState])
    (by norm_num [ActionNoiseWrapper.init, resolveRandomState])
